import Mathlib

/-!
Verification development for the person-detection video analytics
application (frontend under `src/frontend`, backend analytics engine
documented in `src/README.md` and `spec.md`).

Coordinates are modelled as rationals: the geometry used by the engine
(point-in-polygon, bbox/polygon overlap, cross-product side tests) only
relies on exact arithmetic comparisons, so `ℚ` is a faithful shallow
embedding of the normalized-coordinate computations.
-/

namespace PersonDetect

/-- A 2D point in normalized image coordinates, as in
`src/frontend/src/types/index.ts` (`Point`). -/
structure Point where
  x : ℚ
  y : ℚ
deriving DecidableEq, Repr

/-- Crossing direction of a line-crossing event. -/
inductive Direction where
  | inDir
  | outDir
deriving DecidableEq, Repr

/-- Modelled from the spec: the backend `app.py` is not under `src/`; this
is the cross-product side test of `src/README.md` ("Cross Product
Algorithm": `side = (x2 - x1) * (y0 - y1) - (y2 - y1) * (x0 - x1)` with
`(x1,y1)` the line start, `(x2,y2)` the line end and `(x0,y0)` the tested
point), also spec §4.1 `crossingSide`. -/
def crossingSide (lineStart lineEnd p : Point) : ℚ :=
  (lineEnd.x - lineStart.x) * (p.y - lineStart.y)
    - (lineEnd.y - lineStart.y) * (p.x - lineStart.x)

/-- Modelled from the spec: the backend `app.py` is not under `src/`; this
is the crossing-event decision of `src/README.md` ("if old_side * new_side
< 0: direction = IN if old_side > 0 and new_side < 0 else OUT") and spec
§4.3 step 3, for one matched anchor-position/new-position pair. -/
def emitCrossing (lineStart lineEnd oldPos newPos : Point) : Option Direction :=
  let oldSide := crossingSide lineStart lineEnd oldPos
  let newSide := crossingSide lineStart lineEnd newPos
  if oldSide * newSide < 0 then
    if 0 < oldSide ∧ newSide < 0 then some Direction.inDir else some Direction.outDir
  else
    none

/-- C2: for a matched anchor/detection pair, a crossing event is emitted
iff `old_side * new_side < 0`; its direction is IN exactly when
`old_side > 0` and `new_side < 0`, OUT exactly in the opposite strict sign
change; and if either side is zero (a point exactly on the line) no event
is emitted. -/
theorem emitCrossing_spec (lineStart lineEnd oldPos newPos : Point) :
    ((emitCrossing lineStart lineEnd oldPos newPos).isSome ↔
      crossingSide lineStart lineEnd oldPos * crossingSide lineStart lineEnd newPos < 0)
    ∧ (emitCrossing lineStart lineEnd oldPos newPos = some Direction.inDir ↔
      (0 < crossingSide lineStart lineEnd oldPos ∧ crossingSide lineStart lineEnd newPos < 0))
    ∧ (emitCrossing lineStart lineEnd oldPos newPos = some Direction.outDir ↔
      (crossingSide lineStart lineEnd oldPos < 0 ∧ 0 < crossingSide lineStart lineEnd newPos))
    ∧ ((crossingSide lineStart lineEnd oldPos = 0 ∨ crossingSide lineStart lineEnd newPos = 0) →
      emitCrossing lineStart lineEnd oldPos newPos = none) := by
  set a := crossingSide lineStart lineEnd oldPos with ha
  set b := crossingSide lineStart lineEnd newPos with hb
  have hemit : emitCrossing lineStart lineEnd oldPos newPos =
      if a * b < 0 then
        if 0 < a ∧ b < 0 then some Direction.inDir else some Direction.outDir
      else none := rfl
  refine ⟨?_, ?_, ?_, ?_⟩
  · rw [hemit]
    by_cases h : a * b < 0
    · by_cases hc : 0 < a ∧ b < 0 <;> simp [h, hc]
    · simp [h]
  · rw [hemit]
    constructor
    · intro h
      by_cases hab : a * b < 0
      · by_cases hc : 0 < a ∧ b < 0
        · exact hc
        · simp [hab, hc] at h
      · simp [hab] at h
    · intro hc
      have hab : a * b < 0 := mul_neg_of_pos_of_neg hc.1 hc.2
      simp [hab, hc]
  · rw [hemit]
    constructor
    · intro h
      by_cases hab : a * b < 0
      · by_cases hc : 0 < a ∧ b < 0
        · simp [hab, hc] at h
        · rcases mul_neg_iff.mp hab with ⟨hpa, hnb⟩ | ⟨hna, hpb⟩
          · exact absurd ⟨hpa, hnb⟩ hc
          · exact ⟨hna, hpb⟩
      · simp [hab] at h
    · intro hc
      have hab : a * b < 0 := mul_neg_of_neg_of_pos hc.1 hc.2
      have hnc : ¬(0 < a ∧ b < 0) := by
        intro hcc
        exact absurd hc.1 (not_lt.mpr (le_of_lt hcc.1))
      simp [hab, hnc]
  · intro h
    have hab : ¬(a * b < 0) := by
      rcases h with h0 | h0 <;> simp [h0]
    rw [hemit]
    simp [hab]

/-- Witness for C2 at the spec §8 scenario: line `(0,0)-(1,0)`, anchor at
`(1/2, 1/10)`, new position `(1/2, -1/10)` gives an IN event; a point
exactly on the line (side 0) gives no event. -/
theorem emitCrossing_spec_witness :
    emitCrossing ⟨0, 0⟩ ⟨1, 0⟩ ⟨1/2, 1/10⟩ ⟨1/2, -(1/10)⟩ = some Direction.inDir ∧
    emitCrossing ⟨0, 0⟩ ⟨1, 0⟩ ⟨1/2, 0⟩ ⟨1/2, 1/10⟩ = none := by
  constructor
  · exact (emitCrossing_spec ⟨0, 0⟩ ⟨1, 0⟩ ⟨1/2, 1/10⟩ ⟨1/2, -(1/10)⟩).2.1.mpr
      ⟨by norm_num [crossingSide], by norm_num [crossingSide]⟩
  · exact (emitCrossing_spec ⟨0, 0⟩ ⟨1, 0⟩ ⟨1/2, 0⟩ ⟨1/2, 1/10⟩).2.2.2
      (Or.inl (by norm_num [crossingSide]))

/-- An axis-aligned detector bounding box in normalized coordinates, as in
spec §3 (`BoundingBox`). -/
structure BoundingBox where
  x1 : ℚ
  y1 : ℚ
  x2 : ℚ
  y2 : ℚ
  confidence : ℚ
deriving DecidableEq, Repr

/-- Detection centroid `((x1 + x2) / 2, (y1 + y2) / 2)`, as in
`src/README.md` ("Staff Zone (Centroid-based)") and spec §4.2. -/
def centroid (b : BoundingBox) : Point :=
  ⟨(b.x1 + b.x2) / 2, (b.y1 + b.y2) / 2⟩

/-- The closed edge list of a polygon: consecutive vertex pairs, with the
last vertex connected back to the first (spec §4.1: "polygon treated as
closed"). -/
def polygonEdges (poly : List Point) : List (Point × Point) :=
  poly.zip (poly.rotate 1)

/-- Modelled from the spec: the backend `app.py` is not under `src/`; one
step of the standard ray-casting test of spec §4.1 `pointInPolygon`: a
horizontal ray to the right of `p` crosses edge `(a, b)` iff the edge
spans `p.y` and the intersection abscissa is to the right of `p.x`. -/
def rayCrossesEdge (p a b : Point) : Bool :=
  (decide (p.y < a.y) != decide (p.y < b.y)) &&
    decide (p.x < (b.x - a.x) * (p.y - a.y) / (b.y - a.y) + a.x)

/-- Modelled from the spec: the backend `app.py` is not under `src/`; the
standard ray-casting (even-odd) point-in-polygon test of spec §4.1 and
`src/README.md` (`point_in_polygon`), folding the parity of ray/edge
crossings over the closed edge list. -/
def pointInPolygon (p : Point) (poly : List Point) : Bool :=
  (polygonEdges poly).foldl
    (fun inside e => if rayCrossesEdge p e.1 e.2 then !inside else inside) false

/-- Left-of-directed-edge test used by the Sutherland–Hodgman clipper: `p`
is kept iff it lies on or to the left of the directed edge `a → b`
(counter-clockwise clip polygons). -/
def insideEdge (a b p : Point) : Bool :=
  decide (0 ≤ (b.x - a.x) * (p.y - a.y) - (b.y - a.y) * (p.x - a.x))

/-- Intersection of the segment `s–e` with the infinite line through
`a` and `b` (the standard determinant formula used by Sutherland–Hodgman
clipping; only called on segments that cross the line). -/
def segLineIntersect (a b s e : Point) : Point :=
  let dcx := a.x - b.x
  let dcy := a.y - b.y
  let dpx := s.x - e.x
  let dpy := s.y - e.y
  let n1 := a.x * b.y - a.y * b.x
  let n2 := s.x * e.y - s.y * e.x
  let n3 := dcx * dpy - dcy * dpx
  ⟨(n1 * dpx - n2 * dcx) / n3, (n1 * dpy - n2 * dcy) / n3⟩

/-- One pass of Sutherland–Hodgman: clip the subject polygon against the
single directed clip edge `a → b`. -/
def clipAgainstEdge (a b : Point) (subject : List Point) : List Point :=
  (polygonEdges subject).foldl
    (fun out se =>
      let s := se.1
      let e := se.2
      if insideEdge a b e then
        if insideEdge a b s then out ++ [e]
        else out ++ [segLineIntersect a b s e, e]
      else if insideEdge a b s then out ++ [segLineIntersect a b s e]
      else out)
    []

/-- Modelled from the spec: the backend `app.py` is not under `src/`;
Sutherland–Hodgman polygon clipping of spec §4.1: clip the subject
polygon successively against every edge of the clip polygon. -/
def sutherlandHodgman (subject clip : List Point) : List Point :=
  (polygonEdges clip).foldl (fun poly ab => clipAgainstEdge ab.1 ab.2 poly) subject

/-- Twice the signed area of a polygon (shoelace sum over the closed edge
list), spec §4.1. -/
def shoelaceSum (poly : List Point) : ℚ :=
  (polygonEdges poly).foldl (fun acc pq => acc + (pq.1.x * pq.2.y - pq.2.x * pq.1.y)) 0

/-- Polygon area via the shoelace formula, spec §4.1. -/
def polygonArea (poly : List Point) : ℚ :=
  |shoelaceSum poly| / 2

/-- The four corners of a bounding box as a polygon. -/
def bboxPolygon (b : BoundingBox) : List Point :=
  [⟨b.x1, b.y1⟩, ⟨b.x2, b.y1⟩, ⟨b.x2, b.y2⟩, ⟨b.x1, b.y2⟩]

/-- Modelled from the spec: the backend `app.py` is not under `src/`; the
bbox/zone overlap of `src/README.md` (`calculate_bbox_zone_overlap`) and
spec §4.1: area of the box clipped against the polygon divided by the box
area (`0` for a degenerate box). -/
def calculateBboxZoneOverlap (b : BoundingBox) (poly : List Point) : ℚ :=
  let boxArea := polygonArea (bboxPolygon b)
  if boxArea = 0 then 0
  else polygonArea (sutherlandHodgman (bboxPolygon b) poly) / boxArea

/-- Modelled from the spec: the backend `app.py` is not under `src/`; the
staff (presence) zone evaluator of `src/README.md` ("Staff Zone
(Centroid-based)") and spec §4.2: the per-frame loop sets the zone active
once any detection centroid is inside the polygon. -/
def evalStaffZone (poly : List Point) (dets : List BoundingBox) : Bool :=
  dets.foldl (fun active d => active || pointInPolygon (centroid d) poly) false

/-- Modelled from the spec: the backend `app.py` is not under `src/`; the
customer (occupancy) zone evaluator of `src/README.md` ("Customer Zone
(Overlap-based)") and spec §4.2: the per-frame loop counts detections
whose overlap with the polygon reaches the threshold. -/
def evalCustomerZone (poly : List Point) (thr : ℚ) (dets : List BoundingBox) : Nat :=
  dets.foldl (fun c d => if thr ≤ calculateBboxZoneOverlap d poly then c + 1 else c) 0

/-- A frame's `total_detections` is the number of detector boxes (spec §3
invariant `total_detections = len(boxes)`). -/
def totalDetections (dets : List BoundingBox) : Nat :=
  dets.length

theorem foldl_or_any (f : α → Bool) (l : List α) (b : Bool) :
    l.foldl (fun acc d => acc || f d) b = (b || l.any f) := by
  induction l generalizing b with
  | nil => simp
  | cons x xs ih => simp [ih, Bool.or_assoc]

theorem foldl_count_filter (p : α → Prop) [DecidablePred p] (l : List α) (n : Nat) :
    l.foldl (fun c d => if p d then c + 1 else c) n
      = n + (l.filter (fun d => decide (p d))).length := by
  induction l generalizing n with
  | nil => simp
  | cons x xs ih =>
    by_cases hp : p x
    · simp [hp, ih, List.filter_cons]
      omega
    · simp [hp, ih, List.filter_cons]

/-- C3: a presence (staff) zone is active in a frame iff some detection's
centroid lies in the zone polygon; an occupancy (customer) zone's count is
the number of detections whose bbox-to-polygon overlap reaches the
threshold; both are functions of the frame's detection list alone, and an
empty detection list yields `active = false` / `count = 0`. -/
theorem zone_evaluator_spec (poly : List Point) (thr : ℚ) (dets : List BoundingBox) :
    (evalStaffZone poly dets = true ↔
      ∃ d ∈ dets, pointInPolygon (centroid d) poly = true)
    ∧ evalCustomerZone poly thr dets =
      (dets.filter (fun d => decide (thr ≤ calculateBboxZoneOverlap d poly))).length
    ∧ evalStaffZone poly [] = false
    ∧ evalCustomerZone poly thr [] = 0 := by
  refine ⟨?_, ?_, rfl, rfl⟩
  · rw [evalStaffZone, foldl_or_any]
    simp [List.any_eq_true]
  · rw [evalCustomerZone, foldl_count_filter]
    simp

/-- C5: per frame and zone, the occupancy count is between `0` and the
frame's `total_detections`. -/
theorem zone_count_bounds (poly : List Point) (thr : ℚ) (dets : List BoundingBox) :
    0 ≤ evalCustomerZone poly thr dets
    ∧ evalCustomerZone poly thr dets ≤ totalDetections dets := by
  constructor
  · exact Nat.zero_le _
  · rw [evalCustomerZone, foldl_count_filter, totalDetections]
    simpa using List.length_filter_le _ dets

/-- A per-frame (or cumulative) directional line count pair, spec §3
(`line_deltas: mapping line_name -> {in: int, out: int}`). `in` is a Lean
keyword, so the fields are named `inCount` / `outCount`. -/
structure LineDelta where
  inCount : Nat
  outCount : Nat
deriving DecidableEq, Repr

/-- The per-frame state of one zone: boolean for presence (staff) zones,
integer count for occupancy (customer) zones (spec §3 `zone_states`). -/
inductive ZoneState where
  | presence (active : Bool)
  | occupancy (count : Nat)
deriving DecidableEq, Repr

/-- Modelled from the spec: the backend `app.py` is not under `src/`; one
immutable per-frame record of spec §3 (`FrameRecord`): frame number,
`mm:ss` timestamp, total detections, per-zone states and per-line deltas
for this frame only. -/
structure FrameRecord where
  frameNumber : Nat
  timestamp : String
  totalDets : Nat
  zoneStates : List (String × ZoneState)
  lineDeltas : List (String × LineDelta)
deriving DecidableEq, Repr

/-- The frame's delta for one line, `{in := 0, out := 0}` when the frame
records nothing for that line. -/
def deltaFor (r : FrameRecord) (name : String) : LineDelta :=
  match r.lineDeltas.lookup name with
  | some d => d
  | none => ⟨0, 0⟩

/-- Componentwise sum of two in/out pairs. -/
def addDelta (d e : LineDelta) : LineDelta :=
  ⟨d.inCount + e.inCount, d.outCount + e.outCount⟩

/-- Modelled from the spec: the backend `app.py` is not under `src/`; the
Frame Aggregator's incrementally maintained cumulative in/out pair for one
line after folding a FrameRecord sequence (spec §4.4 "Maintains running
sums (... per-line in/out) incrementally"). -/
def cumulativeLine (records : List FrameRecord) (name : String) : LineDelta :=
  records.foldl (fun acc r => addDelta acc (deltaFor r name)) ⟨0, 0⟩

/-- The sum, over a FrameRecord sequence, of a line's per-frame
`in + out` deltas. -/
def sumLineDeltas (records : List FrameRecord) (name : String) : Nat :=
  (records.map (fun r => (deltaFor r name).inCount + (deltaFor r name).outCount)).sum

theorem foldl_addDelta (name : String) (l : List FrameRecord) (acc : LineDelta) :
    l.foldl (fun a r => addDelta a (deltaFor r name)) acc =
      ⟨acc.inCount + (l.map (fun r => (deltaFor r name).inCount)).sum,
       acc.outCount + (l.map (fun r => (deltaFor r name).outCount)).sum⟩ := by
  induction l generalizing acc with
  | nil => simp
  | cons r rs ih =>
    rw [List.foldl_cons, ih]
    simp [addDelta, Nat.add_assoc]

theorem sum_map_add (f g : α → Nat) (l : List α) :
    (l.map fun x => f x + g x).sum = (l.map f).sum + (l.map g).sum := by
  induction l with
  | nil => rfl
  | cons x xs ih =>
    simp [ih]
    omega

/-- C4: for every line and FrameRecord sequence, the cumulative
`in + out` maintained by the aggregator equals the sum over all frames of
that frame's `line_deltas`, and at every frame (every prefix of the
sequence) the running cumulative in/out are the componentwise sums of the
deltas up to that frame. -/
theorem line_cumulative_spec (records : List FrameRecord) (name : String) :
    ((cumulativeLine records name).inCount + (cumulativeLine records name).outCount
      = sumLineDeltas records name)
    ∧ ∀ k, cumulativeLine (records.take k) name =
        ⟨((records.take k).map (fun r => (deltaFor r name).inCount)).sum,
         ((records.take k).map (fun r => (deltaFor r name).outCount)).sum⟩ := by
  have hsum : ∀ l : List FrameRecord, cumulativeLine l name =
      ⟨(l.map (fun r => (deltaFor r name).inCount)).sum,
       (l.map (fun r => (deltaFor r name).outCount)).sum⟩ := by
    intro l
    rw [cumulativeLine, foldl_addDelta]
    simp
  refine ⟨?_, fun k => hsum (records.take k)⟩
  rw [hsum records, sumLineDeltas, sum_map_add]

/-- The `video_info` block of the export schema (`src/README.md` JSON format,
spec §6). -/
structure VideoInfo where
  totalFrames : Nat
  fps : ℚ
  duration : String
deriving DecidableEq, Repr

/-- One element of the export's `frames` array (`src/README.md` JSON
format: `frame_number, timestamp, total_detections, zone_counts,
line_counts`). -/
structure ReportFrame where
  frameNumber : Nat
  timestamp : String
  totalDets : Nat
  zoneCounts : List (String × ZoneState)
  lineCounts : List (String × LineDelta)
deriving DecidableEq, Repr

/-- The export's `summary` block (`src/README.md` JSON format:
`total_detections, avg_detections_per_frame, max_detections_per_frame,
zone_total_detections, line_stats`). -/
structure ReportSummary where
  totalDets : Nat
  avgDetsPerFrame : ℚ
  maxDetsPerFrame : Nat
  zoneTotalDets : List (String × Nat)
  lineStats : List (String × LineDelta)
deriving DecidableEq, Repr

/-- The nested structured export (`video_info`, `zones` metadata keyed by
zone name with the zone's type, `frames` array, `summary`). -/
structure Report where
  videoInfo : VideoInfo
  zones : List (String × String)
  frames : List ReportFrame
  summary : ReportSummary
deriving DecidableEq, Repr

/-- The running sums the Frame Aggregator maintains incrementally (spec
§4.4: total detections, max per frame, processed frame count). -/
structure RunningTotals where
  totalDets : Nat
  maxDets : Nat
  frameCount : Nat
deriving DecidableEq, Repr

/-- Modelled from the spec: the backend `app.py` is not under `src/`; the
aggregator's O(1) per-frame update of its running sums (spec §4.4). -/
def updateTotals (t : RunningTotals) (r : FrameRecord) : RunningTotals :=
  ⟨t.totalDets + r.totalDets, max t.maxDets r.totalDets, t.frameCount + 1⟩

/-- The running totals after folding a FrameRecord sequence. -/
def runningTotals (records : List FrameRecord) : RunningTotals :=
  records.foldl updateTotals ⟨0, 0, 0⟩

/-- The zone state a frame records for a zone (`occupancy 0` when the
frame records nothing for it). -/
def zoneStateFor (r : FrameRecord) (name : String) : ZoneState :=
  (r.zoneStates.lookup name).getD (ZoneState.occupancy 0)

/-- The numeric value a zone state contributes to counts and CSV cells:
the occupancy count, or `1` / `0` for an active / inactive presence
zone. -/
def zoneStateCount : ZoneState → Nat
  | ZoneState.presence a => if a then 1 else 0
  | ZoneState.occupancy n => n

/-- A zone's total over a FrameRecord sequence (export
`zone_total_detections`). -/
def zoneTotal (records : List FrameRecord) (name : String) : Nat :=
  (records.map (fun r => zoneStateCount (zoneStateFor r name))).sum

/-- Modelled from the spec: the backend `app.py` is not under `src/`; the
Report Builder's nested JSON-shaped serialization (spec §4.6), a pure
function of the append-only FrameRecord sequence and the running
totals. -/
def buildReport (info : VideoInfo) (zoneMeta : List (String × String))
    (lineNames : List String) (records : List FrameRecord) : Report :=
  { videoInfo := info
    zones := zoneMeta
    frames := records.map (fun r =>
      { frameNumber := r.frameNumber
        timestamp := r.timestamp
        totalDets := r.totalDets
        zoneCounts := r.zoneStates
        lineCounts := r.lineDeltas })
    summary :=
      { totalDets := (runningTotals records).totalDets
        avgDetsPerFrame :=
          ((runningTotals records).totalDets : ℚ) / ((runningTotals records).frameCount : ℚ)
        maxDetsPerFrame := (runningTotals records).maxDets
        zoneTotalDets := zoneMeta.map (fun z => (z.1, zoneTotal records z.1))
        lineStats := lineNames.map (fun n => (n, cumulativeLine records n)) } }

/-- One row of the tabular CSV serialization (spec §4.6: frame, timestamp,
total detections, one column per zone, two columns per line). -/
structure CsvRow where
  frame : Nat
  timestamp : String
  totalDets : Nat
  zoneCols : List Nat
  lineCols : List (Nat × Nat)
deriving DecidableEq, Repr

/-- Modelled from the spec: the backend `app.py` is not under `src/`; the
Report Builder's row-oriented tabular serialization (spec §4.6), derived
independently from the same FrameRecord sequence. -/
def buildCsvRows (zoneNames lineNames : List String) (records : List FrameRecord) :
    List CsvRow :=
  records.map (fun r =>
    { frame := r.frameNumber
      timestamp := r.timestamp
      totalDets := r.totalDets
      zoneCols := zoneNames.map (fun n => zoneStateCount (zoneStateFor r n))
      lineCols := lineNames.map (fun n =>
        ((deltaFor r n).inCount, (deltaFor r n).outCount)) })

/-- The CSV's total-detections column. -/
def csvTotalColumn (rows : List CsvRow) : List Nat :=
  rows.map (fun row => row.totalDets)

/-- Summary numbers recomputed from the tabular serialization alone. -/
def csvSummaryTotal (rows : List CsvRow) : Nat :=
  (csvTotalColumn rows).sum

/-- Maximum per-frame detections recomputed from the tabular
serialization alone. -/
def csvSummaryMax (rows : List CsvRow) : Nat :=
  (csvTotalColumn rows).foldl max 0

/-- A CSV row and a JSON frame entry agree on every shared numeric value
(frame number, timestamp, total detections, each zone column and each
line's in/out pair). -/
def rowMatchesFrame (zoneNames lineNames : List String) (row : CsvRow)
    (f : ReportFrame) : Prop :=
  row.frame = f.frameNumber
  ∧ row.timestamp = f.timestamp
  ∧ row.totalDets = f.totalDets
  ∧ row.zoneCols = zoneNames.map (fun n =>
      zoneStateCount ((f.zoneCounts.lookup n).getD (ZoneState.occupancy 0)))
  ∧ row.lineCols = lineNames.map (fun n =>
      (((f.lineCounts.lookup n).getD ⟨0, 0⟩).inCount,
       ((f.lineCounts.lookup n).getD ⟨0, 0⟩).outCount))

theorem foldl_updateTotals (l : List FrameRecord) (t : RunningTotals) :
    l.foldl updateTotals t =
      ⟨t.totalDets + (l.map (fun r => r.totalDets)).sum,
       (l.map (fun r => r.totalDets)).foldl max t.maxDets,
       t.frameCount + l.length⟩ := by
  induction l generalizing t with
  | nil => simp
  | cons r rs ih =>
    rw [List.foldl_cons, ih]
    simp [updateTotals, Nat.add_assoc]
    omega

/-- C8: the Report Builder is a pure function of the unchanged FrameRecord
sequence, so re-running it yields identical JSON and CSV outputs; and the
two independently derived serializations agree on every shared numeric
value: each CSV row matches the corresponding JSON frame entry, and the
summary numbers recomputed from the CSV rows equal the JSON summary's
`total_detections` and `max_detections_per_frame`. -/
theorem report_builder_spec (info : VideoInfo) (zoneMeta : List (String × String))
    (lineNames : List String) (records : List FrameRecord) :
    (buildReport info zoneMeta lineNames records
        = buildReport info zoneMeta lineNames records)
    ∧ (buildCsvRows (zoneMeta.map Prod.fst) lineNames records
        = buildCsvRows (zoneMeta.map Prod.fst) lineNames records)
    ∧ List.Forall₂ (rowMatchesFrame (zoneMeta.map Prod.fst) lineNames)
        (buildCsvRows (zoneMeta.map Prod.fst) lineNames records)
        (buildReport info zoneMeta lineNames records).frames
    ∧ csvSummaryTotal (buildCsvRows (zoneMeta.map Prod.fst) lineNames records)
        = (buildReport info zoneMeta lineNames records).summary.totalDets
    ∧ csvSummaryMax (buildCsvRows (zoneMeta.map Prod.fst) lineNames records)
        = (buildReport info zoneMeta lineNames records).summary.maxDetsPerFrame := by
  have hdelta : ∀ (r : FrameRecord) (n : String),
      deltaFor r n = (r.lineDeltas.lookup n).getD ⟨0, 0⟩ := by
    intro r n
    rw [deltaFor]
    cases r.lineDeltas.lookup n <;> rfl
  refine ⟨rfl, rfl, ?_, ?_, ?_⟩
  · rw [buildReport, buildCsvRows]
    simp only [List.forall₂_map_right_iff, List.forall₂_map_left_iff]
    rw [List.forall₂_same]
    intro r _
    refine ⟨rfl, rfl, rfl, rfl, ?_⟩
    simp only [rowMatchesFrame, hdelta]
  · rw [buildReport, buildCsvRows, csvSummaryTotal, csvTotalColumn]
    simp only [List.map_map, Function.comp_def]
    rw [runningTotals, foldl_updateTotals]
    simp
  · rw [buildReport, buildCsvRows, csvSummaryMax, csvTotalColumn]
    simp only [List.map_map, Function.comp_def]
    rw [runningTotals, foldl_updateTotals]

/-- The two zone kinds of `src/frontend/src/types/index.ts`
(`type: 'staff' | 'customer'`). -/
inductive ZoneType where
  | staff
  | customer
deriving DecidableEq, Repr

/-- A drawn zone, from `src/frontend/src/types/index.ts` (`Zone`). -/
structure Zone where
  name : String
  type : ZoneType
  points : List Point
  color : List Nat
deriving DecidableEq, Repr

/-- A counting line, from `src/frontend/src/types/index.ts` (`Line`); the
source field `end` is a Lean keyword, modelled as `endPoint`. -/
structure Line where
  name : String
  start : Point
  endPoint : Point
  color : List Nat
deriving DecidableEq, Repr

/-- The drawing mode of the application page
(`src/frontend/src/app/page.tsx`, `drawingMode: 'zone' | 'line' | null`,
with `null` modelled by `Option`). -/
inductive DrawingMode where
  | zone
  | line
deriving DecidableEq, Repr

/-- The zone/line drawing state of the application page
(`src/frontend/src/app/page.tsx` state hooks `zones`, `lines`,
`currentZone`, `currentLine`, `drawingMode`). -/
structure PageState where
  zones : List Zone
  lines : List Line
  currentZone : Option Zone
  currentLine : Option Line
  drawingMode : Option DrawingMode
deriving DecidableEq, Repr

/-- The initial page state: no zones, no lines, nothing being drawn. -/
def initPageState : PageState :=
  { zones := [], lines := [], currentZone := none, currentLine := none,
    drawingMode := none }

/-- Handler `handleStartZone` of `src/frontend/src/app/page.tsx` (lines 80-90):
begin drawing a zone with no points; the computed name and random color
are taken as parameters. -/
def handleStartZone (name : String) (ztype : ZoneType) (color : List Nat)
    (s : PageState) : PageState :=
  { s with currentZone := some ⟨name, ztype, [], color⟩,
           drawingMode := some DrawingMode.zone }

/-- Handler `handleFinishZone` of `src/frontend/src/app/page.tsx` (lines 93-99):
append the in-progress zone only when it exists and has at least 3
points; otherwise do nothing. -/
def handleFinishZone (s : PageState) : PageState :=
  match s.currentZone with
  | some cz =>
    if 3 ≤ cz.points.length then
      { s with zones := s.zones ++ [cz], currentZone := none, drawingMode := none }
    else s
  | none => s

/-- Handler `handleStartLine` of `src/frontend/src/app/page.tsx` (lines 102-112):
begin drawing a line whose start and end are the placeholder `(0, 0)`. -/
def handleStartLine (name : String) (color : List Nat) (s : PageState) : PageState :=
  { s with currentLine := some ⟨name, ⟨0, 0⟩, ⟨0, 0⟩, color⟩,
           drawingMode := some DrawingMode.line }

/-- Handler `handleCanvasClick` of `src/frontend/src/app/page.tsx` (lines
114-133). In line mode the start-not-yet-set test is the JavaScript
truthiness check `!currentLine.start.x && !currentLine.start.y`, i.e.
both coordinates equal to zero. -/
def handleCanvasClick (p : Point) (s : PageState) : PageState :=
  if s.drawingMode = some DrawingMode.zone then
    match s.currentZone with
    | some cz => { s with currentZone := some { cz with points := cz.points ++ [p] } }
    | none => s
  else if s.drawingMode = some DrawingMode.line then
    match s.currentLine with
    | some cl =>
      if cl.start.x = 0 ∧ cl.start.y = 0 then
        { s with currentLine := some { cl with start := p } }
      else
        { s with lines := s.lines ++ [{ cl with endPoint := p }],
                 currentLine := none, drawingMode := none }
    | none => s
  else s

/-- Handler `handleCanvasRightClick` of `src/frontend/src/app/page.tsx` (lines
136-140): finish the zone only in zone mode with at least 3 points. -/
def handleCanvasRightClick (s : PageState) : PageState :=
  if s.drawingMode = some DrawingMode.zone then
    match s.currentZone with
    | some cz => if 3 ≤ cz.points.length then handleFinishZone s else s
    | none => s
  else s

/-- Handler `handleDeleteZone` of `src/frontend/src/app/page.tsx` (lines 143-145):
remove the zone at one index. -/
def handleDeleteZone (i : Nat) (s : PageState) : PageState :=
  { s with zones := s.zones.eraseIdx i }

/-- Handler `handleDeleteLine` of `src/frontend/src/app/page.tsx` (lines 148-150):
remove the line at one index. -/
def handleDeleteLine (i : Nat) (s : PageState) : PageState :=
  { s with lines := s.lines.eraseIdx i }

/-- Handler `handleClearAll` of `src/frontend/src/app/page.tsx` (lines 153-159). -/
def handleClearAll (s : PageState) : PageState :=
  { s with zones := [], lines := [], currentZone := none, currentLine := none,
           drawingMode := none }

/-- The user events the page handlers react to. -/
inductive PageEvent where
  | startZone (name : String) (ztype : ZoneType) (color : List Nat)
  | finishZone
  | startLine (name : String) (color : List Nat)
  | canvasClick (p : Point)
  | canvasRightClick
  | deleteZone (i : Nat)
  | deleteLine (i : Nat)
  | clearAll
deriving DecidableEq, Repr

/-- Dispatch of one page event to its handler. -/
def stepPage (s : PageState) : PageEvent → PageState
  | PageEvent.startZone name ztype color => handleStartZone name ztype color s
  | PageEvent.finishZone => handleFinishZone s
  | PageEvent.startLine name color => handleStartLine name color s
  | PageEvent.canvasClick p => handleCanvasClick p s
  | PageEvent.canvasRightClick => handleCanvasRightClick s
  | PageEvent.deleteZone i => handleDeleteZone i s
  | PageEvent.deleteLine i => handleDeleteLine i s
  | PageEvent.clearAll => handleClearAll s

/-- The page state reached from the initial state by a sequence of user
events; `handleProcess` starts the job with exactly this state's `zones`
and `lines`. -/
def runPage (evs : List PageEvent) : PageState :=
  evs.foldl stepPage initPageState

/-- The geometric zone invariant: every completed zone has at least 3
polygon points. -/
def zonesWellFormed (s : PageState) : Prop :=
  ∀ z ∈ s.zones, 3 ≤ z.points.length

theorem stepPage_preserves_zonesWellFormed (s : PageState) (e : PageEvent)
    (h : zonesWellFormed s) : zonesWellFormed (stepPage s e) := by
  cases e with
  | startZone name ztype color => exact h
  | finishZone =>
    intro z hz
    rw [stepPage, handleFinishZone] at hz
    cases hcz : s.currentZone with
    | none =>
      rw [hcz] at hz
      exact h z hz
    | some cz =>
      rw [hcz] at hz
      by_cases hlen : 3 ≤ cz.points.length
      · simp only [hlen, if_pos] at hz
        simp only [List.mem_append, List.mem_singleton] at hz
        rcases hz with hz | hz
        · exact h z hz
        · rw [hz]; exact hlen
      · simp only [hlen, if_neg, not_false_iff] at hz
        exact h z hz
  | startLine name color => exact h
  | canvasClick p =>
    intro z hz
    rw [stepPage, handleCanvasClick] at hz
    by_cases hm : s.drawingMode = some DrawingMode.zone
    · simp only [hm, if_pos] at hz
      cases hcz : s.currentZone with
      | none => rw [hcz] at hz; exact h z hz
      | some cz => rw [hcz] at hz; exact h z hz
    · simp only [hm, if_neg, not_false_iff] at hz
      by_cases hm2 : s.drawingMode = some DrawingMode.line
      · simp only [hm2, if_pos] at hz
        cases hcl : s.currentLine with
        | none => rw [hcl] at hz; exact h z hz
        | some cl =>
          rw [hcl] at hz
          by_cases hst : cl.start.x = 0 ∧ cl.start.y = 0
          · simp only [hst, if_pos] at hz
            exact h z hz
          · simp only [hst, if_neg, not_false_iff] at hz
            exact h z hz
      · simp only [hm2, if_neg, not_false_iff] at hz
        exact h z hz
  | canvasRightClick =>
    intro z hz
    rw [stepPage, handleCanvasRightClick] at hz
    by_cases hm : s.drawingMode = some DrawingMode.zone
    · simp only [hm, if_pos] at hz
      cases hcz : s.currentZone with
      | none => rw [hcz] at hz; exact h z hz
      | some cz =>
        rw [hcz] at hz
        by_cases hlen : 3 ≤ cz.points.length
        · simp only [hlen, if_pos] at hz
          rw [handleFinishZone, hcz] at hz
          simp only [hlen, if_pos] at hz
          simp only [List.mem_append, List.mem_singleton] at hz
          rcases hz with hz | hz
          · exact h z hz
          · rw [hz]; exact hlen
        · simp only [hlen, if_neg, not_false_iff] at hz
          exact h z hz
    · simp only [hm, if_neg, not_false_iff] at hz
      exact h z hz
  | deleteZone i =>
    intro z hz
    exact h z (List.eraseIdx_sublist s.zones i |>.subset hz)
  | deleteLine i => exact h
  | clearAll =>
    intro z hz
    simp [stepPage, handleClearAll] at hz

theorem runPage_zonesWellFormed (evs : List PageEvent) :
    zonesWellFormed (runPage evs) := by
  rw [runPage]
  have main : ∀ (l : List PageEvent) (s : PageState), zonesWellFormed s →
      zonesWellFormed (l.foldl stepPage s) := by
    intro l
    induction l with
    | nil => intro s hs; exact hs
    | cons e es ih =>
      intro s hs
      exact ih (stepPage s e) (stepPage_preserves_zonesWellFormed s e hs)
  exact main evs initPageState (by intro z hz; simp [initPageState] at hz)

/-- C6: the finish-zone operation appends the in-progress zone only when
it has at least 3 points and otherwise leaves the state unchanged; hence
after any sequence of page events, every zone in the list handed to a
started job has a polygon with at least 3 points. -/
theorem finish_zone_spec :
    (∀ (s : PageState) (cz : Zone), s.currentZone = some cz →
      cz.points.length < 3 → handleFinishZone s = s)
    ∧ (∀ (s : PageState) (cz : Zone), s.currentZone = some cz →
      3 ≤ cz.points.length →
      (handleFinishZone s).zones = s.zones ++ [cz]
        ∧ (handleFinishZone s).currentZone = none)
    ∧ (∀ s : PageState, s.currentZone = none → handleFinishZone s = s)
    ∧ (∀ evs : List PageEvent, ∀ z ∈ (runPage evs).zones, 3 ≤ z.points.length) := by
  refine ⟨?_, ?_, ?_, ?_⟩
  · intro s cz hcz hlen
    rw [handleFinishZone, hcz]
    simp [Nat.not_le.mpr hlen]
  · intro s cz hcz hlen
    rw [handleFinishZone, hcz]
    simp [hlen]
  · intro s hcz
    rw [handleFinishZone, hcz]
  · exact fun evs => runPage_zonesWellFormed evs

/-- Witness for C6: finishing a 2-point zone leaves the state unchanged;
finishing a 3-point zone appends it; a drawn-and-finished 3-point zone
survives the run with its 3 points. -/
theorem finish_zone_spec_witness :
    (handleFinishZone
        { initPageState with
            currentZone := some ⟨"Z", ZoneType.customer, [⟨0, 0⟩, ⟨1, 0⟩], []⟩,
            drawingMode := some DrawingMode.zone }
      = { initPageState with
            currentZone := some ⟨"Z", ZoneType.customer, [⟨0, 0⟩, ⟨1, 0⟩], []⟩,
            drawingMode := some DrawingMode.zone })
    ∧ (handleFinishZone
        { initPageState with
            currentZone := some ⟨"Z", ZoneType.customer, [⟨0, 0⟩, ⟨1, 0⟩, ⟨1, 1⟩], []⟩,
            drawingMode := some DrawingMode.zone }).zones
      = [⟨"Z", ZoneType.customer, [⟨0, 0⟩, ⟨1, 0⟩, ⟨1, 1⟩], []⟩]
    ∧ ∀ z ∈ (runPage
        [PageEvent.startZone "Z" ZoneType.customer [],
         PageEvent.canvasClick ⟨0, 0⟩, PageEvent.canvasClick ⟨1, 0⟩,
         PageEvent.canvasClick ⟨1, 1⟩, PageEvent.finishZone]).zones,
      3 ≤ z.points.length := by
  refine ⟨?_, ?_, ?_⟩
  · exact finish_zone_spec.1 _ ⟨"Z", ZoneType.customer, [⟨0, 0⟩, ⟨1, 0⟩], []⟩ rfl
      (by decide)
  · exact ((finish_zone_spec.2.1 _ ⟨"Z", ZoneType.customer, [⟨0, 0⟩, ⟨1, 0⟩, ⟨1, 1⟩], []⟩
      rfl (by decide)).1).trans rfl
  · exact finish_zone_spec.2.2.2
      [PageEvent.startZone "Z" ZoneType.customer [],
       PageEvent.canvasClick ⟨0, 0⟩, PageEvent.canvasClick ⟨1, 0⟩,
       PageEvent.canvasClick ⟨1, 1⟩, PageEvent.finishZone]

/-- Counterexample to C9: in line mode, after a first click exactly at
`(0, 0)`, a counting line IS eventually appended — the second click merely
becomes the new start (it overwrites the placeholder), and the third click
completes the line. -/
theorem line_zero_start_counterexample :
    (runPage [PageEvent.startLine "L" [], PageEvent.canvasClick ⟨0, 0⟩,
      PageEvent.canvasClick ⟨2, 3⟩, PageEvent.canvasClick ⟨4, 5⟩]).lines
      = [⟨"L", ⟨2, 3⟩, ⟨4, 5⟩, []⟩]
    ∧ (runPage [PageEvent.startLine "L" [], PageEvent.canvasClick ⟨0, 0⟩,
      PageEvent.canvasClick ⟨2, 3⟩, PageEvent.canvasClick ⟨4, 5⟩]).lines ≠ [] := by
  constructor
  · decide
  · decide

/-- C9 (amended): because the start-not-yet-set test is
`!currentLine.start.x && !currentLine.start.y`, a click at `(0, 0)` is
indistinguishable from the placeholder and overwrites the start instead
of completing the line. Hence: a first click with `x ≠ 0` or `y ≠ 0` makes
the second click append exactly one line with that start and end; after a
first click at `(0, 0)`, the next nonzero click becomes the start and the
click after it appends the line; and while every click is `(0, 0)`, no
line is ever appended. -/
theorem line_click_amended (n : String) (c : List Nat) (p q : Point)
    (hp : p.x ≠ 0 ∨ p.y ≠ 0) :
    (runPage [PageEvent.startLine n c, PageEvent.canvasClick p,
      PageEvent.canvasClick q]).lines = [⟨n, p, q, c⟩]
    ∧ (runPage [PageEvent.startLine n c, PageEvent.canvasClick ⟨0, 0⟩,
      PageEvent.canvasClick p, PageEvent.canvasClick q]).lines = [⟨n, p, q, c⟩]
    ∧ ∀ k : Nat, (runPage (PageEvent.startLine n c ::
        List.replicate k (PageEvent.canvasClick ⟨0, 0⟩))).lines = [] := by
  have hnp : ¬(p.x = 0 ∧ p.y = 0) := by
    rcases hp with h | h
    · exact fun hc => h hc.1
    · exact fun hc => h hc.2
  refine ⟨?_, ?_, ?_⟩
  · simp [runPage, stepPage, handleStartLine, handleCanvasClick, initPageState, hnp]
  · simp [runPage, stepPage, handleStartLine, handleCanvasClick, initPageState, hnp]
  · intro k
    have hfold : ∀ (m : Nat) (s : PageState),
        stepPage s (PageEvent.canvasClick ⟨0, 0⟩) = s →
        (List.replicate m (PageEvent.canvasClick (⟨0, 0⟩ : Point))).foldl stepPage s = s := by
      intro m
      induction m with
      | zero => intro s _; rfl
      | succ m ih =>
        intro s hs
        rw [List.replicate_succ, List.foldl_cons, hs]
        exact ih s hs
    rw [runPage, List.foldl_cons]
    have hS : stepPage initPageState (PageEvent.startLine n c) =
        { zones := [], lines := [], currentZone := none,
          currentLine := some ⟨n, ⟨0, 0⟩, ⟨0, 0⟩, c⟩,
          drawingMode := some DrawingMode.line } := rfl
    rw [hS, hfold k _ (by simp [stepPage, handleCanvasClick])]

/-- Witness for the amended C9 at a concrete nonzero first click. -/
theorem line_click_amended_witness :
    ((Point.mk 2 3).x ≠ 0 ∨ (Point.mk 2 3).y ≠ 0)
    ∧ (runPage [PageEvent.startLine "L" [], PageEvent.canvasClick ⟨2, 3⟩,
        PageEvent.canvasClick ⟨4, 5⟩]).lines = [⟨"L", ⟨2, 3⟩, ⟨4, 5⟩, []⟩] :=
  ⟨Or.inl (by norm_num),
   (line_click_amended "L" [] ⟨2, 3⟩ ⟨4, 5⟩ (Or.inl (by norm_num))).1⟩

/-! Schema embedding for C1: the export/report object shapes are embedded
as ordered field-name lists, taken on one side from the frontend types the
dashboard consumes (`src/frontend/src/types/index.ts`) and on the other
side from the spec's authoritative export schema (spec §6,
`src/README.md` "JSON Format"). -/

/-- Field names of `VideoInfo` in `src/frontend/src/types/index.ts`
(lines 35-39). -/
def videoInfoFields : List String :=
  ["total_frames", "fps", "duration"]

/-- Field names of `ZoneMetadata` in `src/frontend/src/types/index.ts`
(lines 88-92): the values of the report's `zones` mapping. -/
def zoneMetadataFields : List String :=
  ["type", "name", "timeline"]

/-- Field names of `LineStats` in `src/frontend/src/types/index.ts`
(lines 95-99): the values of the report's `summary.line_stats` mapping. -/
def lineStatsFields : List String :=
  ["in", "out", "timeline"]

/-- Field names of `Summary` in `src/frontend/src/types/index.ts`
(lines 101-107). -/
def summaryFields : List String :=
  ["total_persons_detected", "total_persons_seen", "zone_stats", "line_stats"]

/-- Top-level field names of `TrackingData` in
`src/frontend/src/types/index.ts` (lines 110-115): the structured report
the dashboard page loads and reads
(`src/frontend/src/app/dashboard/[filename]/page.tsx` uses
`summary.total_persons_detected`, `summary.total_persons_seen`,
`summary.line_stats`, `zones[name].type`). -/
def trackingDataFields : List String :=
  ["video_info", "zones", "persons", "summary"]

/-- The spec's authoritative export schema, `video_info` block (spec §6). -/
def exportVideoInfoFields : List String :=
  ["total_frames", "fps", "duration"]

/-- The spec's authoritative export schema, one `zones` entry (spec §6:
`zones{<name>: {type, name}}`). -/
def exportZoneEntryFields : List String :=
  ["type", "name"]

/-- The spec's authoritative export schema, one `frames` element (spec §6). -/
def exportFrameFields : List String :=
  ["frame_number", "timestamp", "total_detections", "zone_counts", "line_counts"]

/-- The spec's authoritative export schema, `summary` block (spec §6). -/
def exportSummaryFields : List String :=
  ["total_detections", "avg_detections_per_frame", "max_detections_per_frame",
   "zone_total_detections", "line_stats"]

/-- The spec's authoritative export schema, one `line_stats` entry
(spec §6: `line_stats{<name>:{in, out}}`). -/
def exportLineStatsFields : List String :=
  ["in", "out"]

/-- The spec's authoritative export schema, top level (spec §6:
`video_info`, `zones`, `frames`, `summary`). -/
def exportTopLevelFields : List String :=
  ["video_info", "zones", "frames", "summary"]

/-- Counterexample to C1: the structured report the frontend consumes
(`TrackingData`) does not have the export schema — it has no `frames`
array (it has `persons`), and its `summary` fields are
`total_persons_detected`/`total_persons_seen`/`zone_stats`/`line_stats`,
not the export summary fields; its zone entries also carry an extra
`timeline` field. -/
theorem report_schema_counterexample :
    trackingDataFields ≠ exportTopLevelFields
    ∧ "frames" ∉ trackingDataFields
    ∧ summaryFields ≠ exportSummaryFields
    ∧ "total_detections" ∉ summaryFields
    ∧ zoneMetadataFields ≠ exportZoneEntryFields := by
  refine ⟨?_, ?_, ?_, ?_, ?_⟩ <;> decide

/-- C1 (amended): the structured report the dashboard consumes has
top-level fields `video_info`, `zones`, `persons`, `summary`; its
`video_info` block matches the export schema exactly; its zone entries and
`line_stats` entries contain the export schema's fields (`type`/`name`,
`in`/`out`) plus an extra `timeline`; and its `summary` block has the
person-oriented fields, not the export summary fields. -/
theorem report_schema_amended :
    trackingDataFields = ["video_info", "zones", "persons", "summary"]
    ∧ videoInfoFields = exportVideoInfoFields
    ∧ (∀ f ∈ exportZoneEntryFields, f ∈ zoneMetadataFields)
    ∧ (∀ f ∈ exportLineStatsFields, f ∈ lineStatsFields)
    ∧ summaryFields
      = ["total_persons_detected", "total_persons_seen", "zone_stats", "line_stats"]
    ∧ ∀ f ∈ exportSummaryFields, f ∈ summaryFields → f = "line_stats" := by
  refine ⟨rfl, rfl, ?_, ?_, rfl, ?_⟩ <;> decide

/-- Upload status of the uploader component
(`src/frontend/src/components/application/VideoUploader.tsx`,
`uploadStatus: 'idle' | 'uploading' | 'success' | 'error'`). -/
inductive UploadStatus where
  | idle
  | uploading
  | success
  | error
deriving DecidableEq, Repr

/-- The uploader component's state hooks
(`src/frontend/src/components/application/VideoUploader.tsx` lines
16-19). -/
structure UploadState where
  uploadProgress : Nat
  isUploading : Bool
  uploadStatus : UploadStatus
  error : Option String
deriving DecidableEq, Repr

/-- The uploader's initial state (the `useState` defaults). -/
def initUploadState : UploadState :=
  { uploadProgress := 0, isUploading := false, uploadStatus := UploadStatus.idle,
    error := none }

/-- The network upload request `api.uploadVideo` would issue
(`src/frontend/src/lib/api.ts`, `POST /upload` with the file). -/
structure UploadRequest where
  fileName : String
deriving DecidableEq, Repr

/-- ASCII lowercasing of one character, the behaviour of JavaScript
`toLowerCase` on the ASCII extensions compared here. -/
def charToLower (c : Char) : Char :=
  if 'A' ≤ c ∧ c ≤ 'Z' then Char.ofNat (c.toNat + 32) else c

/-- ASCII lowercasing of a string. -/
def strToLower (s : String) : String :=
  String.mk (s.data.map charToLower)

/-- JavaScript `name.split('.')` on the character list: splits at every
`'.'`, keeping empty segments, and yields at least one segment. -/
def splitOnDot : List Char → List (List Char)
  | [] => [[]]
  | c :: rest =>
    if c = '.' then [] :: splitOnDot rest
    else
      match splitOnDot rest with
      | g :: gs => (c :: g) :: gs
      | [] => [[c]]

/-- The expression `file.name.split('.').pop()?.toLowerCase()` of
`src/frontend/src/components/application/VideoUploader.tsx` line 51 (the
`pop` of a split result is always defined, so the optional chain is the
last segment). -/
def fileExtension (name : String) : String :=
  String.mk (((splitOnDot name.data).getLastD []).map charToLower)

/-- The substring after the final `'.'` of the name (the whole name when
it contains no `'.'`), written as a direct scan rather than via
`split`. -/
def afterLastDot : List Char → List Char
  | [] => []
  | c :: rest =>
    if '.' ∈ rest then afterLastDot rest
    else if c = '.' then rest
    else c :: rest

/-- The lowercased substring after the final `'.'` in the file name. -/
def extAfterFinalDot (name : String) : String :=
  strToLower (String.mk (afterLastDot name.data))

/-- The list `validExtensions` of
`src/frontend/src/components/application/VideoUploader.tsx` line 50. -/
def validExtensions : List String :=
  ["mp4", "avi", "mov", "mkv"]

/-- The error message set on an invalid file type
(`src/frontend/src/components/application/VideoUploader.tsx` line 54). -/
def invalidFileTypeMessage (ext : String) : String :=
  "Invalid file type \"" ++ ext ++ "\". Please upload MP4, AVI, MOV, or MKV files."

/-- Handler `handleUpload` of
`src/frontend/src/components/application/VideoUploader.tsx` (lines
48-82), up to the point the network request is issued: on an invalid
extension (the JavaScript falsy check `!fileExtension` or a value outside
`validExtensions`) set the error fields and return without a request;
otherwise enter the uploading state and issue the request. -/
def handleUpload (fileName : String) (s : UploadState) :
    UploadState × Option UploadRequest :=
  if fileExtension fileName = "" ∨ fileExtension fileName ∉ validExtensions then
    ({ s with error := some (invalidFileTypeMessage (fileExtension fileName)),
              uploadStatus := UploadStatus.error }, none)
  else
    ({ s with isUploading := true, uploadStatus := UploadStatus.uploading,
              error := none, uploadProgress := 0 },
     some ⟨fileName⟩)

theorem splitOnDot_ne_nil (cs : List Char) : splitOnDot cs ≠ [] := by
  cases cs with
  | nil => simp [splitOnDot]
  | cons c rest =>
    rw [splitOnDot]
    by_cases hc : c = '.'
    · simp [hc]
    · simp only [hc, if_neg, not_false_iff]
      cases splitOnDot rest <;> simp

theorem splitOnDot_no_dot (cs : List Char) (h : '.' ∉ cs) : splitOnDot cs = [cs] := by
  induction cs with
  | nil => rfl
  | cons c rest ih =>
    have hc : c ≠ '.' := fun hc => h (hc ▸ List.mem_cons_self c rest)
    have hr : '.' ∉ rest := fun hr => h (List.mem_cons_of_mem c hr)
    rw [splitOnDot, if_neg hc, ih hr]

theorem splitOnDot_length_of_mem (cs : List Char) (h : '.' ∈ cs) :
    2 ≤ (splitOnDot cs).length := by
  induction cs with
  | nil => simp at h
  | cons c rest ih =>
    rw [splitOnDot]
    by_cases hc : c = '.'
    · have h1 : 0 < (splitOnDot rest).length :=
        List.length_pos.mpr (splitOnDot_ne_nil rest)
      rw [if_pos hc, List.length_cons]
      omega
    · have hr : '.' ∈ rest := by
        rcases List.mem_cons.mp h with h1 | h1
        · exact absurd h1.symm hc
        · exact h1
      have h2 := ih hr
      rw [if_neg hc]
      cases hsp : splitOnDot rest with
      | nil => exact absurd hsp (splitOnDot_ne_nil rest)
      | cons g gs =>
        rw [hsp] at h2
        simpa using h2

theorem splitOnDot_getLast_eq_afterLastDot (cs : List Char) :
    (splitOnDot cs).getLastD [] = afterLastDot cs := by
  induction cs with
  | nil => rfl
  | cons c rest ih =>
    by_cases hr : '.' ∈ rest
    · rw [afterLastDot, if_pos hr, ← ih, splitOnDot]
      cases hsp : splitOnDot rest with
      | nil => exact absurd hsp (splitOnDot_ne_nil rest)
      | cons g gs =>
        cases gs with
        | nil =>
          have h2 := splitOnDot_length_of_mem rest hr
          rw [hsp] at h2
          simp at h2
        | cons g2 gs2 =>
          by_cases hc : c = '.'
          · rw [if_pos hc]
            simp [List.getLastD_cons]
          · rw [if_neg hc]
            simp [List.getLastD_cons]
    · rw [afterLastDot, if_neg hr, splitOnDot, splitOnDot_no_dot rest hr]
      by_cases hc : c = '.'
      · rw [if_pos hc, if_pos hc]
        simp [List.getLastD_cons]
      · rw [if_neg hc, if_neg hc]
        simp [List.getLastD_cons]

/-- The source's `split('.').pop().toLowerCase()` computes exactly the
lowercased substring after the final dot. -/
theorem fileExtension_eq_extAfterFinalDot (name : String) :
    fileExtension name = extAfterFinalDot name := by
  rw [fileExtension, extAfterFinalDot, strToLower,
    splitOnDot_getLast_eq_afterLastDot]

theorem mem_validExtensions_ne_empty {e : String} (h : e ∈ validExtensions) :
    e ≠ "" := by
  intro he
  rw [he] at h
  revert h
  decide

/-- C10: the uploader issues an upload request iff the lowercased
substring after the final `'.'` of the file name is one of
`mp4`/`avi`/`mov`/`mkv`; otherwise it sets the error status with the
invalid-file-type message, issues no network request, and leaves the rest
of the upload state (progress, uploading flag) unchanged. -/
theorem uploader_validation_spec (fileName : String) (s : UploadState) :
    ((handleUpload fileName s).2.isSome ↔
      extAfterFinalDot fileName ∈ validExtensions)
    ∧ (extAfterFinalDot fileName ∉ validExtensions →
      (handleUpload fileName s).2 = none
      ∧ (handleUpload fileName s).1
        = { s with error := some (invalidFileTypeMessage (extAfterFinalDot fileName)),
                   uploadStatus := UploadStatus.error }
      ∧ (handleUpload fileName s).1.isUploading = s.isUploading
      ∧ (handleUpload fileName s).1.uploadProgress = s.uploadProgress)
    ∧ (extAfterFinalDot fileName ∈ validExtensions →
      (handleUpload fileName s).2 = some ⟨fileName⟩
      ∧ (handleUpload fileName s).1.uploadStatus = UploadStatus.uploading) := by
  have hext := fileExtension_eq_extAfterFinalDot fileName
  by_cases hmem : extAfterFinalDot fileName ∈ validExtensions
  · have hcond : ¬(fileExtension fileName = ""
        ∨ fileExtension fileName ∉ validExtensions) := by
      rw [hext]
      push_neg
      exact ⟨mem_validExtensions_ne_empty hmem, hmem⟩
    refine ⟨?_, fun hc => absurd hmem hc, fun _ => ?_⟩
    · rw [handleUpload, if_neg hcond]
      simp [hmem]
    · rw [handleUpload, if_neg hcond]
      exact ⟨rfl, rfl⟩
  · have hcond : fileExtension fileName = ""
        ∨ fileExtension fileName ∉ validExtensions := by
      rw [hext]
      exact Or.inr hmem
    refine ⟨?_, fun _ => ?_, fun hc => absurd hc hmem⟩
    · rw [handleUpload, if_pos hcond]
      simp [hmem]
    · rw [handleUpload, if_pos hcond]
      refine ⟨rfl, ?_, rfl, rfl⟩
      rw [hext]

/-- Witness for C10: `video.txt` is rejected with no request issued;
`clip.MP4` (uppercase extension) is accepted and the request issued. -/
theorem uploader_validation_spec_witness :
    (extAfterFinalDot "video.txt" ∉ validExtensions)
    ∧ (handleUpload "video.txt" initUploadState).2 = none
    ∧ (extAfterFinalDot "clip.MP4" ∈ validExtensions)
    ∧ (handleUpload "clip.MP4" initUploadState).2 = some ⟨"clip.MP4"⟩ := by
  refine ⟨by decide, ?_, by decide, ?_⟩
  · exact ((uploader_validation_spec "video.txt" initUploadState).2.1 (by decide)).1
  · exact ((uploader_validation_spec "clip.MP4" initUploadState).2.2 (by decide)).1

/-- The job progress stages (spec §4.5 `ProgressState.stage`, and the
frontend's stage map `stageConfig` in `src/frontend/src/app/page.tsx`
lines 29-36, which keys exactly these six stages). -/
inductive Stage where
  | starting
  | loading
  | processing
  | converting
  | complete
  | error
deriving DecidableEq, Repr

/-- Position of each non-error stage in the spec §4.5 order
`starting → loading → processing → converting → complete`. -/
def stageRank : Stage → Nat
  | Stage.starting => 0
  | Stage.loading => 1
  | Stage.processing => 2
  | Stage.converting => 3
  | Stage.complete => 4
  | Stage.error => 5

/-- An allowed observable transition between consecutive published
(stage, percent) entries (spec §4.5): either a monotone move among
non-error stages — with the advisory percent non-decreasing while the
stage stays `processing` — or a jump to `error` from a non-terminal
stage. -/
def progressStepOk (a b : Stage × Nat) : Prop :=
  (b.1 = Stage.error ∧ a.1 ≠ Stage.complete ∧ a.1 ≠ Stage.error)
  ∨ (a.1 ≠ Stage.error ∧ b.1 ≠ Stage.error ∧ stageRank a.1 ≤ stageRank b.1
     ∧ (a.1 ≠ Stage.processing ∨ b.1 ≠ Stage.processing ∨ a.2 ≤ b.2))

instance (a b : Stage × Nat) : Decidable (progressStepOk a b) := by
  unfold progressStepOk
  infer_instance

/-- Modelled from the spec: the backend `app.py` is not under `src/`; the
per-frame `processing` entries a job's worker publishes, with
`percent = frame_number / total_frames` as an integer percentage
(spec §4.5). -/
def processingEntries (total : Nat) : List (Stage × Nat) :=
  (List.range total).map (fun k => (Stage.processing, (k + 1) * 100 / total))

/-- Modelled from the spec: the backend `app.py` is not under `src/`; the
full (stage, percent) sequence a successful job's worker publishes
(spec §4.5 `starting → loading → processing → converting → complete`). -/
def fullTrace (total : Nat) : List (Stage × Nat) :=
  (Stage.starting, 0) :: (Stage.loading, 0) ::
    (processingEntries total ++ [(Stage.converting, 100), (Stage.complete, 100)])

/-- Modelled from the spec: the backend `app.py` is not under `src/`; the
published sequence of a job: the full successful trace, or — when the job
fails after its first `k + 1` entries — a proper prefix (never past
`converting`) terminated by `error` (spec §4.5, §7). -/
def progressTrace (total : Nat) (failAfter : Option Nat) : List (Stage × Nat) :=
  match failAfter with
  | none => fullTrace total
  | some k =>
    (fullTrace total).take (min (k + 1) ((fullTrace total).length - 1))
      ++ [(Stage.error, 0)]

/-- The percents published while the stage is `processing`. -/
def processingPercents (t : List (Stage × Nat)) : List Nat :=
  (t.filter (fun e => decide (e.1 = Stage.processing))).map Prod.snd

theorem chain'_processingEntries (total : Nat) :
    List.Chain' progressStepOk (processingEntries total) := by
  rw [processingEntries]
  cases total with
  | zero => simp
  | succ t =>
    exact (List.chain'_map _).mpr ((List.chain'_range_succ _ t).mpr
      (fun m _ => Or.inr ⟨by simp, by simp, le_refl _,
        Or.inr (Or.inr (Nat.div_le_div_right (Nat.mul_le_mul_right _ (by omega))))⟩))

theorem chain'_fullTrace (total : Nat) :
    List.Chain' progressStepOk (fullTrace total) := by
  rw [fullTrace, List.chain'_cons]
  refine ⟨Or.inr ⟨by simp, by simp, by norm_num [stageRank], Or.inl (by simp)⟩, ?_⟩
  rw [List.chain'_cons']
  constructor
  · intro h hh
    cases total with
    | zero =>
      simp [processingEntries] at hh
      rw [← hh]
      exact Or.inr ⟨by simp, by simp, by norm_num [stageRank], Or.inl (by simp)⟩
    | succ t =>
      rw [processingEntries, List.range_succ_eq_map] at hh
      simp only [List.map_cons, List.cons_append, List.head?_cons,
        Option.mem_def, Option.some.injEq] at hh
      rw [← hh]
      exact Or.inr ⟨by simp, by simp, by norm_num [stageRank], Or.inl (by simp)⟩
  · rw [List.chain'_append]
    refine ⟨chain'_processingEntries total,
      List.chain'_cons.mpr ⟨Or.inr ⟨by simp, by simp, by norm_num [stageRank],
        Or.inl (by simp)⟩, List.chain'_singleton _⟩, ?_⟩
    intro x hx y hy
    simp only [List.head?_cons, Option.mem_def, Option.some.injEq] at hy
    have hx2 : x ∈ processingEntries total := by
      rcases List.mem_getLast?_eq_getLast hx with ⟨hne, hxl⟩
      rw [hxl]
      exact List.getLast_mem hne
    rw [processingEntries] at hx2
    rcases List.mem_map.mp hx2 with ⟨k, _, hk⟩
    rw [← hy, ← hk]
    exact Or.inr ⟨by simp, by simp, by norm_num [stageRank], Or.inr (Or.inl (by simp))⟩

theorem fullTrace_dropLast (total : Nat) :
    (fullTrace total).dropLast
      = (Stage.starting, 0) :: (Stage.loading, 0) ::
          (processingEntries total ++ [(Stage.converting, 100)]) := by
  have hsplit : fullTrace total
      = ((Stage.starting, 0) :: (Stage.loading, 0) ::
          (processingEntries total ++ [(Stage.converting, 100)]))
        ++ [(Stage.complete, 100)] := by
    simp [fullTrace]
  rw [hsplit, List.dropLast_concat]

theorem mem_dropLast_fullTrace (total : Nat) (x : Stage × Nat)
    (hx : x ∈ (fullTrace total).dropLast) :
    x.1 ≠ Stage.complete ∧ x.1 ≠ Stage.error := by
  rw [fullTrace_dropLast] at hx
  rcases List.mem_cons.mp hx with h | hx
  · rw [h]
    exact ⟨by simp, by simp⟩
  rcases List.mem_cons.mp hx with h | hx
  · rw [h]
    exact ⟨by simp, by simp⟩
  rcases List.mem_append.mp hx with h | h
  · rw [processingEntries] at h
    rcases List.mem_map.mp h with ⟨k, _, hk⟩
    rw [← hk]
    exact ⟨by simp, by simp⟩
  · rw [List.mem_singleton.mp h]
    exact ⟨by simp, by simp⟩

theorem percents_fullTrace (total : Nat) :
    processingPercents (fullTrace total)
      = (List.range total).map (fun k => (k + 1) * 100 / total) := by
  rw [processingPercents, fullTrace, processingEntries]
  simp [List.filter_append, List.filter_map, Function.comp_def]

theorem chain'_le_percents (total : Nat) :
    List.Chain' (fun a b : Nat => a ≤ b)
      ((List.range total).map (fun k => (k + 1) * 100 / total)) := by
  cases total with
  | zero => simp
  | succ t =>
    exact (List.chain'_map _).mpr ((List.chain'_range_succ _ t).mpr
      (fun m _ => Nat.div_le_div_right (Nat.mul_le_mul_right _ (by omega))))

/-- C7: every published job trace — successful or failing at any point —
only makes allowed transitions (stage order
`starting → loading → processing → converting → complete` with no
regression, `error` only from a non-terminal stage); a terminal stage
(`complete` or `error`) occurs only as the last published entry, so no
further stage change follows it; and the percents published within the
`processing` stage are monotonically non-decreasing. -/
theorem progress_stage_spec (total : Nat) (failAfter : Option Nat) :
    List.Chain' progressStepOk (progressTrace total failAfter)
    ∧ (∀ x ∈ (progressTrace total failAfter).dropLast,
        x.1 ≠ Stage.complete ∧ x.1 ≠ Stage.error)
    ∧ List.Chain' (fun a b : Nat => a ≤ b)
        (processingPercents (progressTrace total failAfter)) := by
  cases failAfter with
  | none =>
    refine ⟨chain'_fullTrace total, fun x hx => mem_dropLast_fullTrace total x hx, ?_⟩
    show List.Chain' _ (processingPercents (fullTrace total))
    rw [percents_fullTrace]
    exact chain'_le_percents total
  | some k =>
    have htake : (fullTrace total).take (min (k + 1) ((fullTrace total).length - 1))
        = ((fullTrace total).dropLast).take (k + 1) := by
      rw [List.dropLast_eq_take, List.take_take]
    have hmem : ∀ x ∈ ((fullTrace total).dropLast).take (k + 1),
        x.1 ≠ Stage.complete ∧ x.1 ≠ Stage.error := by
      intro x hx
      exact mem_dropLast_fullTrace total x (List.mem_of_mem_take hx)
    refine ⟨?_, ?_, ?_⟩
    · show List.Chain' progressStepOk
        ((fullTrace total).take (min (k + 1) ((fullTrace total).length - 1))
          ++ [(Stage.error, 0)])
      rw [List.chain'_append, htake]
      refine ⟨( List.Chain'.prefix (chain'_fullTrace total)
        (( List.take_prefix _ _).trans ( List.dropLast_prefix _))), ?_, ?_⟩
      · exact List.chain'_singleton _
      · intro x hx y hy
        simp only [List.head?_cons, Option.mem_def, Option.some.injEq] at hy
        have hx2 : x ∈ ((fullTrace total).dropLast).take (k + 1) := by
          rcases List.mem_getLast?_eq_getLast hx with ⟨hne, hxl⟩
          rw [hxl]
          exact List.getLast_mem hne
        rcases hmem x hx2 with ⟨hc, he⟩
        rw [← hy]
        exact Or.inl ⟨rfl, hc, he⟩
    · show ∀ x ∈ ((fullTrace total).take (min (k + 1) ((fullTrace total).length - 1))
          ++ [(Stage.error, 0)]).dropLast,
        x.1 ≠ Stage.complete ∧ x.1 ≠ Stage.error
      rw [List.dropLast_concat, htake]
      exact hmem
    · show List.Chain' _ (processingPercents
        ((fullTrace total).take (min (k + 1) ((fullTrace total).length - 1))
          ++ [(Stage.error, 0)]))
      rw [processingPercents, List.filter_append, htake]
      have herr : List.filter (fun e => decide (e.1 = Stage.processing))
          [((Stage.error : Stage), (0 : Nat))] = [] := by decide
      rw [herr, List.append_nil]
      have hpre : (((fullTrace total).dropLast).take (k + 1)).filter
            (fun e => decide (e.1 = Stage.processing))
          <+: (fullTrace total).filter (fun e => decide (e.1 = Stage.processing)) :=
        List.IsPrefix.filter _ (( List.take_prefix _ _).trans ( List.dropLast_prefix _))
      have hchain : List.Chain' (fun a b : Nat => a ≤ b)
          (((fullTrace total).filter
            (fun e => decide (e.1 = Stage.processing))).map Prod.snd) := by
        have := percents_fullTrace total
        rw [processingPercents] at this
        rw [this]
        exact chain'_le_percents total
      exact List.Chain'.prefix hchain (List.IsPrefix.map _ hpre)

/-- Witness for C7 at a concrete job: 3 frames, failing after 4 published
entries, and also succeeding. -/
theorem progress_stage_spec_witness :
    List.Chain' progressStepOk (progressTrace 3 none)
    ∧ List.Chain' progressStepOk (progressTrace 3 (some 3)) := by
  exact ⟨(progress_stage_spec 3 none).1, (progress_stage_spec 3 (some 3)).1⟩

end PersonDetect
